import Mathlib

/-!
# Verification of the Financial Reconciliation Engine core

Shallow embedding of the decision logic of `backend/server.py`:
the reconciliation matcher (`reconcile_transactions`), the anomaly-detection
pipeline (`detect_anomalies_statistical`, `detect_anomalies_ml`,
`run_anomaly_detection`) and the data-quality scorer
(`calculate_data_quality`), together with theorems about them.

Modelling conventions:
* Python floats are embedded as exact rationals (`ℚ`); the tolerance
  comparisons (`0.01`, `100`, z-score `3`, IQR `1.5`) are idealized to exact
  rational arithmetic.
* The Mongo document identity `_id` used for the matcher's claimed set is
  embedded as the position of the GL entry in the fetched list (Mongo `_id`s
  are unique per document, so position is a faithful stand-in for identity).
* The generated `id : uuid` and `created_at : datetime` fields of result
  records are omitted: their values are nondeterministic environment inputs
  and no verified property mentions them.
* `AnomalyResult.anomaly_score` is omitted: in the source it is a float
  (`abs(z)`, a square root, or an sklearn decision-function value) that no
  verified property mentions; all other fields are kept.
* The sklearn model outputs (`fit_predict` of `IsolationForest` and
  `OneClassSVM`) are opaque numerical procedures; they enter the embedding of
  `detect_anomalies_ml` as the oracle parameters `isoPred`/`svmPred`, one
  prediction per transaction row, exactly as the source consumes them.
-/

set_option allowUnsafeReducibility true in
attribute [semireducible] Rat.add Rat.mul Rat.inv Rat.sub Rat.div

/-- Python's `abs` on exact rationals.  (Defined directly rather than through
the lattice `|·|` so that concrete runs of the embedded programs reduce; the
lemma `absQ_eq_abs` below identifies it with Mathlib's absolute value.) -/
def absQ (q : ℚ) : ℚ := if q < 0 then -q else q

/-- `Transaction` record (`server.py`, class `Transaction`); the generated
`id` field is omitted (see header). -/
structure Transaction where
  txn_id : String
  date : String
  amount : ℚ
  account_id : String
  counterparty : String
  deriving DecidableEq, Repr

/-- `GeneralLedgerEntry` record (`server.py`, class `GeneralLedgerEntry`). -/
structure GeneralLedgerEntry where
  gl_id : String
  date : String
  debit_amount : ℚ
  credit_amount : ℚ
  account_id : String
  deriving DecidableEq, Repr

/-- `ReconciliationResult` record (`server.py`, class `ReconciliationResult`);
`id`/`created_at` omitted (see header). -/
structure ReconciliationResult where
  status : String
  transaction_id : Option String
  gl_id : Option String
  account_id : String
  date : String
  amount_difference : Option ℚ
  deriving DecidableEq, Repr

/-- `AnomalyResult` record (`server.py`, class `AnomalyResult`);
`id`/`created_at`/`anomaly_score` omitted (see header). -/
structure AnomalyResult where
  transaction_id : String
  anomaly_type : String
  is_anomaly : Bool
  detection_method : String
  deriving DecidableEq, Repr

/-- The net signed amount of a GL entry:
`gl_amount = gl['debit_amount'] - gl['credit_amount']` (`server.py:174`). -/
def gl_amount (g : GeneralLedgerEntry) : ℚ :=
  g.debit_amount - g.credit_amount

/-- The inner scan of `reconcile_transactions` (`server.py:168-199`): walk the
GL entries in order (`i` is the index of the head of `l` in the full list),
skipping entries that are claimed or do not share `account_id`/`date`, and
stop at the first entry whose net amount is within `100` of the transaction
amount (entries at distance `≥ 100` are skipped and the scan continues,
mirroring the absence of an `else` branch in the source). -/
def scanGL (t : Transaction) (claimed : List ℕ) : ℕ → List GeneralLedgerEntry →
    Option (ℕ × GeneralLedgerEntry)
  | _, [] => none
  | i, g :: l =>
    if g.account_id = t.account_id ∧ g.date = t.date ∧ i ∉ claimed ∧
        absQ (gl_amount g - t.amount) < 100 then
      some (i, g)
    else
      scanGL t claimed (i + 1) l

/-- The `matched` record of `server.py:177-184`: `amount_difference` is the
literal `0.0`, not the true (sub-tolerance) difference. -/
def mkMatched (t : Transaction) (g : GeneralLedgerEntry) : ReconciliationResult :=
  ⟨"matched", some t.txn_id, some g.gl_id, t.account_id, t.date, some 0⟩

/-- The `amount_mismatch` record of `server.py:189-196`: `amount_difference`
is the signed difference `net - amount`. -/
def mkMismatch (t : Transaction) (g : GeneralLedgerEntry) : ReconciliationResult :=
  ⟨"amount_mismatch", some t.txn_id, some g.gl_id, t.account_id, t.date,
   some (gl_amount g - t.amount)⟩

/-- The `missing_gl` record of `server.py:203-208`: no GL reference, no
amount difference. -/
def mkMissingGl (t : Transaction) : ReconciliationResult :=
  ⟨"missing_gl", some t.txn_id, none, t.account_id, t.date, none⟩

/-- One iteration of the outer loop of `reconcile_transactions`
(`server.py:165-210`): produce the result record for transaction `t` given
the current claimed set, and the updated claimed set. -/
def processTxn (t : Transaction) (claimed : List ℕ)
    (gls : List GeneralLedgerEntry) : ReconciliationResult × List ℕ :=
  match scanGL t claimed 0 gls with
  | some (j, g) =>
    if absQ (gl_amount g - t.amount) < 1/100 then (mkMatched t g, j :: claimed)
    else (mkMismatch t g, j :: claimed)
  | none => (mkMissingGl t, claimed)

/-- The transaction loop of `reconcile_transactions` (`server.py:162-210`):
process the transactions in input order, threading the claimed set. -/
def reconcileLoop (gls : List GeneralLedgerEntry) :
    List Transaction → List ℕ → List ReconciliationResult × List ℕ
  | [], claimed => ([], claimed)
  | t :: ts, claimed =>
    let pr := processTxn t claimed gls
    let rest := reconcileLoop gls ts pr.2
    (pr.1 :: rest.1, rest.2)

/-- The `missing_transaction` record emitted for a never-claimed GL entry
(`server.py:215-220`). -/
def mkMissingTxn (g : GeneralLedgerEntry) : ReconciliationResult :=
  ⟨"missing_transaction", none, some g.gl_id, g.account_id, g.date, none⟩

/-- The closing loop of `reconcile_transactions` (`server.py:213-221`):
emit `missing_transaction` for every GL entry whose index was never claimed,
in input order (`i` is the index of the head of `l` in the full list). -/
def missingTxnResults (claimed : List ℕ) : ℕ → List GeneralLedgerEntry →
    List ReconciliationResult
  | _, [] => []
  | i, g :: l =>
    if i ∈ claimed then missingTxnResults claimed (i + 1) l
    else mkMissingTxn g :: missingTxnResults claimed (i + 1) l

/-- `reconcile_transactions` (`server.py:154-228`): the full emitted result
sequence of one matcher run, transaction verdicts first (in transaction
order), then `missing_transaction` records for unclaimed GL entries (in GL
order). -/
def reconcile_transactions (ts : List Transaction)
    (gls : List GeneralLedgerEntry) : List ReconciliationResult :=
  let p := reconcileLoop gls ts []
  p.1 ++ missingTxnResults p.2 0 gls

/-- The claimed set (`matched_gl_ids`, `server.py:163`) at the end of a run,
as the list of claimed GL positions (most recently claimed first). -/
def claimedList (ts : List Transaction) (gls : List GeneralLedgerEntry) :
    List ℕ :=
  (reconcileLoop gls ts []).2

/-- The claimed set just before the transaction at position `i` is
processed. -/
def claimedBefore (ts : List Transaction) (gls : List GeneralLedgerEntry)
    (i : ℕ) : List ℕ :=
  (reconcileLoop gls (ts.take i) []).2

/-- The `gl_id` stored at position `j` of the GL list (used to phrase
provenance of emitted results). -/
def glIdAt (gls : List GeneralLedgerEntry) (j : ℕ) : String :=
  match gls.get? j with
  | some g => g.gl_id
  | none => ""

/-- The GL reference of a result when its status is one of the two
transaction-to-GL verdicts, `none` otherwise. -/
def txnGlId (r : ReconciliationResult) : Option String :=
  if r.status = "matched" ∨ r.status = "amount_mismatch" then r.gl_id else none

/-- Population mean of a list of amounts (`stats.zscore` uses the population
mean; `server.py:242`). -/
def listMean (l : List ℚ) : ℚ :=
  l.sum / l.length

/-- Population variance of a list of amounts (`stats.zscore` uses `ddof=0`,
i.e. the population standard deviation; `server.py:242`). -/
def popVar (l : List ℚ) : ℚ :=
  (l.map (fun x => (x - listMean l) * (x - listMean l))).sum / l.length

/-- The z-score flag of `server.py:242-243`:
`np.abs(stats.zscore(amounts)) > 3`.  Squared to stay inside `ℚ`:
for a positive standard deviation, `|x - μ| / σ > 3 ↔ (x - μ)² > 9 σ²`;
for a zero standard deviation the source compares `NaN > 3`, which is
`False`, and then `x = μ` makes `(x - μ)² > 9 σ²` read `0 > 0`, also
false, so the embedding agrees in both regimes. -/
def zFlag (amounts : List ℚ) (x : ℚ) : Bool :=
  decide (9 * popVar amounts < (x - listMean amounts) * (x - listMean amounts))

/-- Linear-interpolation quantile of an already sorted list, the pandas
default used by `df['amount'].quantile(q)` (`server.py:256-257`): the
quantile `num/den` sits at position `h = (n-1)·num/den`; interpolate
between the floor and ceiling positions. -/
def quantileSorted (s : List ℚ) (num den : ℕ) : ℚ :=
  let pos := (s.length - 1) * num
  let j := pos / den
  let frac : ℚ := ((pos % den : ℕ) : ℚ) / (den : ℚ)
  match s.get? j, s.get? (j + 1) with
  | some a, some b => a + frac * (b - a)
  | some a, none => a
  | _, _ => 0

/-- The IQR outlier bounds of `server.py:256-260`:
`[Q1 - 1.5·IQR, Q3 + 1.5·IQR]` with `Q1 = quantile(0.25)`,
`Q3 = quantile(0.75)` (values-only quantiles, hence computed on the sorted
amounts). -/
def iqrBounds (amounts : List ℚ) : ℚ × ℚ :=
  let s := List.insertionSort (· ≤ ·) amounts
  let q1 := quantileSorted s 1 4
  let q3 := quantileSorted s 3 4
  (q1 - 3/2 * (q3 - q1), q3 + 3/2 * (q3 - q1))

/-- The IQR flag of `server.py:262`:
`amount < lower_bound or amount > upper_bound`. -/
def iqrFlag (amounts : List ℚ) (x : ℚ) : Bool :=
  decide (x < (iqrBounds amounts).1 ∨ (iqrBounds amounts).2 < x)

/-- The record added by the z-score pass (`server.py:246-252`). -/
def mkZscoreResult (t : Transaction) : AnomalyResult :=
  ⟨t.txn_id, "statistical", true, "z_score"⟩

/-- The record added by the IQR pass (`server.py:267-273`). -/
def mkIqrResult (t : Transaction) : AnomalyResult :=
  ⟨t.txn_id, "statistical", true, "iqr"⟩

/-- The IQR pass of `server.py:264-274`: walk the IQR-flagged transactions
in order and append a record unless the transaction id is already present in
the accumulated anomaly list (the source's `txn['txn_id'] not in
[a.transaction_id for a in anomalies]` check). -/
def addIqr : List AnomalyResult → List Transaction → List AnomalyResult
  | acc, [] => acc
  | acc, t :: ts =>
    if t.txn_id ∈ acc.map (fun a => a.transaction_id) then addIqr acc ts
    else addIqr (acc ++ [mkIqrResult t]) ts

/-- `detect_anomalies_statistical` (`server.py:231-276`): nothing below 5
transactions; otherwise the z-score pass (every `|z| > 3` row, in order)
followed by the id-deduplicated IQR pass. -/
def detect_anomalies_statistical (ts : List Transaction) : List AnomalyResult :=
  if ts.length < 5 then []
  else
    let amounts := ts.map (fun t => t.amount)
    let zRes := (ts.filter (fun t => zFlag amounts t.amount)).map mkZscoreResult
    addIqr zRes (ts.filter (fun t => iqrFlag amounts t.amount))

/-- The record added by the isolation-forest pass (`server.py:312-318`). -/
def mkIsoResult (t : Transaction) : AnomalyResult :=
  ⟨t.txn_id, "ml_isolation_forest", true, "isolation_forest"⟩

/-- The record added by the one-class-SVM pass (`server.py:331-337`). -/
def mkSvmResult (t : Transaction) : AnomalyResult :=
  ⟨t.txn_id, "ml_one_class_svm", true, "one_class_svm"⟩

/-- `detect_anomalies_ml` (`server.py:278-340`): nothing below 10
transactions; otherwise flag every row the isolation forest labels `-1`
(`server.py:309-319`), then every row the one-class SVM labels `-1` whose id
is not already flagged (`server.py:326-338`).  The two sklearn models are
opaque numeric procedures; their per-row `fit_predict` outputs enter as the
oracle parameters `isoPred` and `svmPred` (the feature preparation and
standardisation of `server.py:288-302` only feed those models and do not
otherwise affect the output). -/
def detect_anomalies_ml (ts : List Transaction) (isoPred svmPred : List ℤ) :
    List AnomalyResult :=
  if ts.length < 10 then []
  else
    let isoRes := (ts.zip isoPred).foldl
      (fun acc p => if p.2 = -1 then acc ++ [mkIsoResult p.1] else acc) []
    (ts.zip svmPred).foldl
      (fun acc p =>
        if p.2 = -1 ∧ p.1.txn_id ∉ acc.map (fun a => a.transaction_id) then
          acc ++ [mkSvmResult p.1]
        else acc)
      isoRes

/-- The merge step of `run_anomaly_detection` (`server.py:467`):
`all_anomalies = statistical_anomalies + ml_anomalies`, with no
cross-sub-pipeline deduplication. -/
def run_anomaly_detection (ts : List Transaction) (isoPred svmPred : List ℤ) :
    List AnomalyResult :=
  detect_anomalies_statistical ts ++ detect_anomalies_ml ts isoPred svmPred

/-- An operation performed on a persisted result collection. -/
inductive DBOp (α : Type) where
  | deleteAll : DBOp α
  | insertOne : α → DBOp α
  | insertMany : List α → DBOp α
  deriving DecidableEq, Repr

/-- Effect of one collection operation on the persisted state. -/
def applyOp {α : Type} (s : List α) : DBOp α → List α
  | DBOp.deleteAll => []
  | DBOp.insertOne r => s ++ [r]
  | DBOp.insertMany rs => s ++ rs

/-- Effect of a sequence of collection operations, first to last. -/
def applyOps {α : Type} (s : List α) : List (DBOp α) → List α
  | [] => s
  | op :: ops => applyOps (applyOp s op) ops

/-- The sequence of operations `reconcile_transactions` issues against the
`reconciliation_results` collection, in program order: the
`delete_many({})` of `server.py:160` is issued before the results are
computed, then each result is inserted one at a time
(`server.py:224-226`). -/
def reconcileOps (ts : List Transaction) (gls : List GeneralLedgerEntry) :
    List (DBOp ReconciliationResult) :=
  DBOp.deleteAll :: (reconcile_transactions ts gls).map DBOp.insertOne

/-- The sequence of operations `run_anomaly_detection` issues against the
`anomalies` collection, in program order: the `delete_many({})` of
`server.py:458` precedes detection; the merged list is inserted as one
batch afterwards, and only when nonempty (`server.py:468-470`). -/
def anomalyOps (ts : List Transaction) (isoPred svmPred : List ℤ) :
    List (DBOp AnomalyResult) :=
  let allAnoms := run_anomaly_detection ts isoPred svmPred
  DBOp.deleteAll :: (if allAnoms.isEmpty then [] else [DBOp.insertMany allAnoms])

/-- A cell of an ingested tabular dataset: a numeric value, a string value,
or a missing value (pandas `NaN`). -/
inductive Cell where
  | num : ℚ → Cell
  | str : String → Cell
  | null : Cell
  deriving DecidableEq, Repr

/-- A tabular dataset (pandas `DataFrame`): named columns and rows of
cells; a well-formed frame has every row of length `columns.length`. -/
structure DataFrame where
  columns : List String
  rows : List (List Cell)
  deriving DecidableEq, Repr

/-- Whether a cell is missing. -/
def cellIsNull : Cell → Bool
  | Cell.null => true
  | _ => false

/-- `df.count().sum()` (`server.py:116`): the number of non-missing cells of
the frame. -/
def nonNullCells (df : DataFrame) : ℕ :=
  (df.rows.map (fun r => (r.filter (fun c => !cellIsNull c)).length)).sum

/-- The cells of the named column, in row order (`df[name]`); empty when the
column does not exist. -/
def columnVals (df : DataFrame) (name : String) : List Cell :=
  match df.columns.indexOf? name with
  | some i => df.rows.map (fun r => r.getD i Cell.null)
  | none => []

/-- `(df['amount'] < 0).sum()` (`server.py:127`): the number of negative
values in the `amount` column.  A missing cell compares `NaN < 0`, which is
`False`, so only numeric cells can count. -/
def negAmountCount (df : DataFrame) : ℕ :=
  (columnVals df "amount").countP
    (fun c => match c with | Cell.num q => decide (q < 0) | _ => false)

/-- `df.duplicated().sum()` (`server.py:123`): the number of rows equal to
some earlier row (all columns equal). -/
def dupCountAux : List (List Cell) → List (List Cell) → ℕ
  | _, [] => 0
  | seen, r :: rest =>
    (if r ∈ seen then 1 else 0) + dupCountAux (r :: seen) rest

/-- Python's `round` (banker's rounding) to the nearest integer. -/
def roundHalfEven (q : ℚ) : ℤ :=
  let f : ℤ := ⌊q⌋
  let r : ℚ := q - (f : ℚ)
  if r < 1/2 then f
  else if (1 : ℚ)/2 < r then f + 1
  else if f % 2 = 0 then f else f + 1

/-- `round(x, 2)` (`server.py:146-149`). -/
def round2 (q : ℚ) : ℚ :=
  ((roundHalfEven (q * 100) : ℤ) : ℚ) / 100

/-- `DataQualityReport` record (`server.py`, class `DataQualityReport`);
`created_at` omitted (see header). -/
structure DataQualityReport where
  dataset_name : String
  total_records : ℕ
  completeness_score : ℚ
  consistency_score : ℚ
  duplicate_count : ℕ
  quality_score : ℚ
  issues : List String
  deriving DecidableEq, Repr

/-- `calculate_data_quality` (`server.py:111-151`).  The one step that is not
embeddable numerically is `pd.to_datetime(df['date'])` (`server.py:135`), a
calendar parse of every date string; whether it succeeds enters as the
boolean parameter `dateOk`.  Everything else follows the source: completeness
is the fraction of non-missing cells; consistency starts at `100`, loses `10`
when an `amount` column contains a negative value and `15` when the `date`
column fails to parse; quality is the mean of the two unrounded scores; the
three percentage scores are rounded to two decimals. -/
def calculate_data_quality (df : DataFrame) (dateOk : Bool)
    (dataset_name : String) : DataQualityReport :=
  let completeness : ℚ :=
    ((nonNullCells df : ℚ) / ((df.rows.length : ℚ) * (df.columns.length : ℚ)))
      * 100
  let negs := negAmountCount df
  let amountPenalty : ℚ := if "amount" ∈ df.columns ∧ 0 < negs then 10 else 0
  let datePenalty : ℚ := if "date" ∈ df.columns ∧ dateOk = false then 15 else 0
  let consistency : ℚ := 100 - amountPenalty - datePenalty
  let issues : List String :=
    (if "amount" ∈ df.columns ∧ 0 < negs then
       [toString negs ++ " negative amounts found"]
     else []) ++
    (if "date" ∈ df.columns ∧ dateOk = false then
       ["Inconsistent date formats"]
     else [])
  ⟨dataset_name, df.rows.length, round2 completeness, round2 consistency,
   dupCountAux [] df.rows, round2 ((completeness + consistency) / 2), issues⟩

/-! ## Concrete inputs used by counterexamples and witnesses -/

/-- A transaction of amount `0` on account `ACC1`. -/
def exT1 : Transaction := ⟨"T1", "2024-01-01", 0, "ACC1", "CP"⟩

/-- A GL entry on `exT1`'s account and date whose net amount differs from
`exT1.amount` by `50` (a near miss: inside the mismatch ceiling). -/
def exGnear : GeneralLedgerEntry := ⟨"G1", "2024-01-01", 50, 0, "ACC1"⟩

/-- A GL entry on `exT1`'s account and date whose net amount equals
`exT1.amount` exactly. -/
def exGexact : GeneralLedgerEntry := ⟨"G2", "2024-01-01", 0, 0, "ACC1"⟩

/-- A GL entry whose net amount differs from `exT1.amount` by `99.99`. -/
def exG9999 : GeneralLedgerEntry := ⟨"G3", "2024-01-01", 9999/100, 0, "ACC1"⟩

/-- A GL entry whose net amount differs from `exT1.amount` by `100`. -/
def exG100 : GeneralLedgerEntry := ⟨"G4", "2024-01-01", 100, 0, "ACC1"⟩

/-- A second transaction with the same account, date and amount as `exT1`. -/
def exT2 : Transaction := ⟨"T2", "2024-01-01", 0, "ACC1", "CP"⟩

/-- A previously persisted reconciliation result, standing for the prior
run's result set. -/
def exPrevRec : ReconciliationResult :=
  ⟨"matched", some "OLD", some "OLDG", "ACC0", "2023-12-31", some 0⟩

/-- A previously persisted anomaly result. -/
def exPrevAnom : AnomalyResult := ⟨"OLD", "statistical", true, "z_score"⟩

/-- Eleven transactions with distinct ids: ten of amount `0` and one (id
`T10`) of amount `11`.  The amount-`11` row has `|z| = √10 > 3` and lies
above the collapsed IQR upper bound, so it is flagged by both statistical
methods. -/
def exTxns11 : List Transaction :=
  [⟨"T0", "d", 0, "A", "C"⟩, ⟨"T1x", "d", 0, "A", "C"⟩, ⟨"T2x", "d", 0, "A", "C"⟩,
   ⟨"T3", "d", 0, "A", "C"⟩, ⟨"T4", "d", 0, "A", "C"⟩, ⟨"T5", "d", 0, "A", "C"⟩,
   ⟨"T6", "d", 0, "A", "C"⟩, ⟨"T7", "d", 0, "A", "C"⟩, ⟨"T8", "d", 0, "A", "C"⟩,
   ⟨"T9", "d", 0, "A", "C"⟩, ⟨"T10", "d", 11, "A", "C"⟩]

/-- Isolation-forest predictions for `exTxns11` flagging only the last row. -/
def exIsoPred : List ℤ := [1, 1, 1, 1, 1, 1, 1, 1, 1, 1, -1]

/-- One-class-SVM predictions for `exTxns11` flagging nothing. -/
def exSvmPred : List ℤ := List.replicate 11 1

/-- Five transactions with distinct ids, all of amount `7`. -/
def exTxnsConst : List Transaction :=
  [⟨"S0", "d", 7, "A", "C"⟩, ⟨"S1", "d", 7, "A", "C"⟩, ⟨"S2", "d", 7, "A", "C"⟩,
   ⟨"S3", "d", 7, "A", "C"⟩, ⟨"S4", "d", 7, "A", "C"⟩]

/-- A 4-row × 5-column frame whose first row is fully null and whose other
three rows are complete. -/
def exDF : DataFrame :=
  ⟨["txn_id", "date", "amount", "account_id", "counterparty"],
   [List.replicate 5 Cell.null,
    [Cell.str "a", Cell.str "2024-01-01", Cell.num 1, Cell.str "x", Cell.str "y"],
    [Cell.str "b", Cell.str "2024-01-02", Cell.num 2, Cell.str "x", Cell.str "y"],
    [Cell.str "c", Cell.str "2024-01-03", Cell.num 3, Cell.str "x", Cell.str "y"]]⟩

/-- A complete 1-row frame with a negative `amount` value. -/
def exDFneg : DataFrame :=
  ⟨["txn_id", "date", "amount", "account_id", "counterparty"],
   [[Cell.str "a", Cell.str "2024-01-01", Cell.num (-5), Cell.str "x",
     Cell.str "y"]]⟩

/-! ## Theorems -/

/-- C2: for a single transaction and a single GL entry sharing `account_id`
and `date`, a net-to-amount distance of exactly `99.99` yields one
`amount_mismatch` result carrying the signed difference, while a distance of
exactly `100.00` yields a `missing_gl` result for the transaction (no GL id,
no amount difference) followed by a `missing_transaction` result for the GL
entry: the mismatch-versus-missing boundary is a strict less-than at
`100`. -/
theorem claim2_mismatch_boundary (t : Transaction) (g : GeneralLedgerEntry)
    (hacct : g.account_id = t.account_id) (hdate : g.date = t.date) :
    (absQ (gl_amount g - t.amount) = 9999/100 →
      reconcile_transactions [t] [g] = [mkMismatch t g]) ∧
    (absQ (gl_amount g - t.amount) = 100 →
      reconcile_transactions [t] [g] = [mkMissingGl t, mkMissingTxn g]) := by
  constructor
  · intro h
    have h100 : absQ (gl_amount g - t.amount) < 100 := by rw [h]; norm_num
    have hsmall : ¬ absQ (gl_amount g - t.amount) < (100 : ℚ)⁻¹ := by
      rw [h]; norm_num
    simp [reconcile_transactions, reconcileLoop, processTxn, scanGL, hacct,
      hdate, h100, hsmall, missingTxnResults]
  · intro h
    have h100 : ¬ absQ (gl_amount g - t.amount) < 100 := by rw [h]; norm_num
    simp [reconcile_transactions, reconcileLoop, processTxn, scanGL, hacct,
      hdate, h100, missingTxnResults]

/-- C2 witness: the boundary theorem applied to a concrete transaction of
amount `0` against GL entries of net amount `99.99` and `100`. -/
theorem claim2_witness :
    reconcile_transactions [exT1] [exG9999] = [mkMismatch exT1 exG9999] ∧
    reconcile_transactions [exT1] [exG100] =
      [mkMissingGl exT1, mkMissingTxn exG100] :=
  ⟨(claim2_mismatch_boundary exT1 exG9999 rfl rfl).1 (by decide),
   (claim2_mismatch_boundary exT1 exG100 rfl rfl).2 (by decide)⟩

/-- C8: fewer than 5 transactions make statistical anomaly detection return
the empty sequence, and fewer than 10 transactions make ML anomaly detection
return the empty sequence; neither case is an error. -/
theorem claim8_insufficient_data (ts : List Transaction)
    (isoPred svmPred : List ℤ) :
    (ts.length < 5 → detect_anomalies_statistical ts = []) ∧
    (ts.length < 10 → detect_anomalies_ml ts isoPred svmPred = []) := by
  constructor
  · intro h
    simp [detect_anomalies_statistical, h]
  · intro h
    simp [detect_anomalies_ml, h]

/-- C8 witness: the insufficient-data theorem applied to a two-transaction
input. -/
theorem claim8_witness :
    detect_anomalies_statistical [exT1, exT2] = [] ∧
    detect_anomalies_ml [exT1, exT2] [1, 1] [1, 1] = [] :=
  ⟨(claim8_insufficient_data [exT1, exT2] [1, 1] [1, 1]).1 (by decide),
   (claim8_insufficient_data [exT1, exT2] [1, 1] [1, 1]).2 (by decide)⟩

/-- `absQ` is Mathlib's absolute value on `ℚ`. -/
theorem absQ_eq_abs (q : ℚ) : absQ q = |q| := by
  unfold absQ
  split
  · exact (abs_of_neg (by assumption)).symm
  · exact (abs_of_nonneg (le_of_not_lt (by assumption))).symm

/-- Replaying a prefix of single-row inserts on an empty collection yields
the corresponding prefix of the inserted rows. -/
theorem applyOps_insertOne_take {α : Type} (s : List α) (l : List α) (m : ℕ) :
    applyOps s ((l.map DBOp.insertOne).take m) = s ++ l.take m := by
  induction l generalizing s m with
  | nil => simp [applyOps]
  | cons a l ih =>
    cases m with
    | zero => simp [applyOps]
    | succ m =>
      simp only [List.map_cons, List.take_succ_cons, applyOps, applyOp, ih]
      simp

/-- C5 counterexample: the claim asserts a failed run leaves the previous
result set intact because nothing touches the collection before the full
replacement is materialized; but `reconcile_transactions` issues its
`delete_many({})` first (`server.py:160`), so a run interrupted after that
first collection operation leaves a state that is neither the previous
result set nor the full replacement. -/
theorem claim5_counterexample :
    applyOps [exPrevRec] ((reconcileOps [exT1] [exGexact]).take 1) ≠
      [exPrevRec] ∧
    applyOps [exPrevRec] ((reconcileOps [exT1] [exGexact]).take 1) ≠
      reconcile_transactions [exT1] [exGexact] := by
  decide

/-- C5 amended: a reconciliation run deletes the previous result set before
computing, then inserts the new results one at a time, so interrupting it
after `k ≥ 1` collection operations leaves the first `k - 1` newly emitted
results (a prefix of the replacement, not the previous set); an
anomaly-detection run likewise deletes first and then inserts the merged
list as one batch, so an interrupted run leaves either the empty collection
or the complete new set. -/
theorem claim5_amended (prev : List ReconciliationResult)
    (ts : List Transaction) (gls : List GeneralLedgerEntry) (k : ℕ)
    (hk : 1 ≤ k) :
    applyOps prev ((reconcileOps ts gls).take k) =
      (reconcile_transactions ts gls).take (k - 1) ∧
    ∀ (prevA : List AnomalyResult) (ts2 : List Transaction)
      (isoPred svmPred : List ℤ) (k2 : ℕ), 1 ≤ k2 →
      applyOps prevA ((anomalyOps ts2 isoPred svmPred).take k2) = [] ∨
      applyOps prevA ((anomalyOps ts2 isoPred svmPred).take k2) =
        run_anomaly_detection ts2 isoPred svmPred := by
  constructor
  · obtain ⟨m, rfl⟩ : ∃ m, k = m + 1 := ⟨k - 1, by omega⟩
    simp only [reconcileOps, List.take_succ_cons, applyOps, applyOp,
      applyOps_insertOne_take]
    simp
  · intro prevA ts2 isoPred svmPred k2 hk2
    obtain ⟨m, rfl⟩ : ∃ m, k2 = m + 1 := ⟨k2 - 1, by omega⟩
    by_cases he : (run_anomaly_detection ts2 isoPred svmPred).isEmpty
    · left
      simp [anomalyOps, he, applyOps, applyOp]
    · cases m with
      | zero => left; simp [anomalyOps, he, applyOps, applyOp]
      | succ m =>
        right
        simp [anomalyOps, he, applyOps, applyOp]

/-- C5 amended, witness: concrete replay of an interrupted reconciliation
run (two operations: the delete and one insert) and of an interrupted
anomaly run (after its delete). -/
theorem claim5_amended_witness :
    applyOps [exPrevRec] ((reconcileOps [exT1] [exGexact]).take 2) =
      (reconcile_transactions [exT1] [exGexact]).take 1 ∧
    (applyOps [exPrevAnom] ((anomalyOps [exT1] [] []).take 1) = [] ∨
     applyOps [exPrevAnom] ((anomalyOps [exT1] [] []).take 1) =
       run_anomaly_detection [exT1] [] []) :=
  ⟨(claim5_amended [exPrevRec] [exT1] [exGexact] 2 (by decide)).1,
   (claim5_amended [exPrevRec] [exT1] [exGexact] 2 (by decide)).2
     [exPrevAnom] [exT1] [] [] 1 (by decide)⟩

/-- C7: the merged anomaly output is exactly the statistical sub-pipeline's
results followed by the ML sub-pipeline's results, with no deduplication
between the two: a transaction id flagged once by each sub-pipeline appears
twice in the merge, once per sub-pipeline. -/
theorem claim7_merge_independence (ts : List Transaction)
    (isoPred svmPred : List ℤ) (tid : String)
    (hs : ((detect_anomalies_statistical ts).filter
        (fun r => r.transaction_id == tid)).length = 1)
    (hm : ((detect_anomalies_ml ts isoPred svmPred).filter
        (fun r => r.transaction_id == tid)).length = 1) :
    run_anomaly_detection ts isoPred svmPred =
      detect_anomalies_statistical ts ++
        detect_anomalies_ml ts isoPred svmPred ∧
    ((run_anomaly_detection ts isoPred svmPred).filter
        (fun r => r.transaction_id == tid)).length = 2 := by
  refine ⟨rfl, ?_⟩
  simp [run_anomaly_detection, List.filter_append, hs, hm]

/-- C7 witness: in `exTxns11` the transaction `T10` is flagged once by the
statistical sub-pipeline (z-score) and once by the ML sub-pipeline
(isolation forest), and appears twice in the merged output. -/
theorem claim7_witness :
    ((run_anomaly_detection exTxns11 exIsoPred exSvmPred).filter
        (fun r => r.transaction_id == "T10")).length = 2 :=
  (claim7_merge_independence exTxns11 exIsoPred exSvmPred "T10"
    (by decide) (by decide)).2

/-- Soundness of the inner GL scan: a hit at position `j`, scanning from
offset `k`, is an entry of the scanned list satisfying the stopping
condition of `server.py:169-175` and not yet claimed. -/
theorem scanGL_eq_some (t : Transaction) (claimed : List ℕ) :
    ∀ (l : List GeneralLedgerEntry) (k j : ℕ) (g : GeneralLedgerEntry),
      scanGL t claimed k l = some (j, g) →
      k ≤ j ∧ l.get? (j - k) = some g ∧ g.account_id = t.account_id ∧
        g.date = t.date ∧ j ∉ claimed ∧ absQ (gl_amount g - t.amount) < 100 := by
  intro l
  induction l with
  | nil => intro k j g h; simp [scanGL] at h
  | cons g0 l ih =>
    intro k j g h
    by_cases hc : g0.account_id = t.account_id ∧ g0.date = t.date ∧
        k ∉ claimed ∧ absQ (gl_amount g0 - t.amount) < 100
    · rw [scanGL, if_pos hc] at h
      cases h
      exact ⟨le_rfl, by simp, hc.1, hc.2.1, hc.2.2.1, hc.2.2.2⟩
    · rw [scanGL, if_neg hc] at h
      obtain ⟨h1, h2, h3⟩ := ih (k + 1) j g h
      refine ⟨by omega, ?_, h3⟩
      rw [show j - k = (j - (k + 1)) + 1 by omega]
      simpa using h2

/-- The inner scan started at offset `0`, specialised. -/
theorem scanGL_spec {t : Transaction} {claimed : List ℕ}
    {gls : List GeneralLedgerEntry} {j : ℕ} {g : GeneralLedgerEntry}
    (h : scanGL t claimed 0 gls = some (j, g)) :
    gls.get? j = some g ∧ j < gls.length ∧ g.account_id = t.account_id ∧
      g.date = t.date ∧ j ∉ claimed ∧ absQ (gl_amount g - t.amount) < 100 := by
  obtain ⟨-, h2, h3, h4, h5, h6⟩ := scanGL_eq_some t claimed gls 0 j g h
  rw [Nat.sub_zero] at h2
  obtain ⟨hlt, -⟩ := List.get?_eq_some.mp h2
  exact ⟨h2, hlt, h3, h4, h5, h6⟩

/-- The position a result's GL reference resolves to. -/
theorem glIdAt_eq {gls : List GeneralLedgerEntry} {j : ℕ}
    {g : GeneralLedgerEntry} (h : gls.get? j = some g) :
    glIdAt gls j = g.gl_id := by
  unfold glIdAt
  rw [h]

/-- A failed scan yields the `missing_gl` verdict and leaves the claimed set
unchanged. -/
theorem processTxn_none {t : Transaction} {c : List ℕ}
    {gls : List GeneralLedgerEntry} (h : scanGL t c 0 gls = none) :
    processTxn t c gls = (mkMissingGl t, c) := by
  simp [processTxn, h]

/-- A successful scan claims exactly the hit position, and the emitted
record references the hit entry's `gl_id` in both reference projections. -/
theorem processTxn_some {t : Transaction} {c : List ℕ}
    {gls : List GeneralLedgerEntry} {j : ℕ} {g : GeneralLedgerEntry}
    (h : scanGL t c 0 gls = some (j, g)) :
    (processTxn t c gls).2 = j :: c ∧
    (processTxn t c gls).1.gl_id = some g.gl_id ∧
    txnGlId (processTxn t c gls).1 = some g.gl_id := by
  simp only [processTxn, h]
  by_cases hd : absQ (gl_amount g - t.amount) < (100 : ℚ)⁻¹ <;>
    simp [hd, mkMatched, mkMismatch, txnGlId, one_div]

/-- Every transaction verdict carries the transaction's id and one of the
three transaction statuses. -/
theorem processTxn_fields (t : Transaction) (c : List ℕ)
    (gls : List GeneralLedgerEntry) :
    (processTxn t c gls).1.transaction_id = some t.txn_id ∧
    ((processTxn t c gls).1.status = "matched" ∨
     (processTxn t c gls).1.status = "amount_mismatch" ∨
     (processTxn t c gls).1.status = "missing_gl") := by
  rcases hscan : scanGL t c 0 gls with _ | ⟨j, g⟩
  · simp [processTxn, hscan, mkMissingGl]
  · simp only [processTxn, hscan]
    by_cases hd : absQ (gl_amount g - t.amount) < (100 : ℚ)⁻¹ <;>
      simp [hd, mkMatched, mkMismatch, one_div]

/-- The transaction loop emits exactly one record per transaction. -/
theorem reconcileLoop_length (gls : List GeneralLedgerEntry) :
    ∀ (ts : List Transaction) (c : List ℕ),
      (reconcileLoop gls ts c).1.length = ts.length := by
  intro ts
  induction ts with
  | nil => intro c; rfl
  | cons t ts ih => intro c; simp [reconcileLoop, ih]

/-- Splitting the transaction loop at an append point. -/
theorem reconcileLoop_append (gls : List GeneralLedgerEntry)
    (ts1 ts2 : List Transaction) (c : List ℕ) :
    reconcileLoop gls (ts1 ++ ts2) c =
      ((reconcileLoop gls ts1 c).1 ++
         (reconcileLoop gls ts2 (reconcileLoop gls ts1 c).2).1,
       (reconcileLoop gls ts2 (reconcileLoop gls ts1 c).2).2) := by
  induction ts1 generalizing c with
  | nil => simp [reconcileLoop]
  | cons t ts ih => simp [reconcileLoop, ih]

/-- Provenance of the transaction loop: the claimed set grows by a
duplicate-free block `Δ` of fresh, in-range GL positions, and the GL
references of the emitted verdicts are exactly the `gl_id`s at those
positions (in claim order). -/
theorem reconcileLoop_spec (gls : List GeneralLedgerEntry) :
    ∀ (ts : List Transaction) (c : List ℕ),
      ∃ Δ : List ℕ,
        (reconcileLoop gls ts c).2 = Δ ++ c ∧ Δ.Nodup ∧
        (∀ j ∈ Δ, j ∉ c ∧ j < gls.length) ∧
        (reconcileLoop gls ts c).1.filterMap (fun r => r.gl_id) =
          Δ.reverse.map (glIdAt gls) ∧
        (reconcileLoop gls ts c).1.filterMap txnGlId =
          Δ.reverse.map (glIdAt gls) := by
  intro ts
  induction ts with
  | nil =>
    intro c
    exact ⟨[], rfl, List.nodup_nil, by simp, by simp [reconcileLoop],
      by simp [reconcileLoop]⟩
  | cons t ts ih =>
    intro c
    rcases hscan : scanGL t c 0 gls with _ | ⟨j, g⟩
    · obtain ⟨Δ, h1, h2, h3, h4, h5⟩ := ih c
      have hp := processTxn_none hscan
      refine ⟨Δ, ?_, h2, h3, ?_, ?_⟩
      · simp only [reconcileLoop, hp]
        exact h1
      · simp only [reconcileLoop, hp]
        rw [List.filterMap_cons_none, h4]
        simp [mkMissingGl]
      · simp only [reconcileLoop, hp]
        rw [List.filterMap_cons_none, h5]
        simp [txnGlId, mkMissingGl]
    · obtain ⟨hget, hlt, -, -, hnin, -⟩ := scanGL_spec hscan
      obtain ⟨hp2, hpgl, hptxn⟩ := processTxn_some hscan
      obtain ⟨Δ, h1, h2, h3, h4, h5⟩ := ih (j :: c)
      have hjΔ : j ∉ Δ := fun hj => (h3 j hj).1 (List.mem_cons_self j c)
      refine ⟨Δ ++ [j], ?_, ?_, ?_, ?_, ?_⟩
      · simp only [reconcileLoop, hp2]
        rw [h1, List.append_cons]
      · simp [List.nodup_append, h2, hjΔ]
      · intro m hm
        rcases List.mem_append.mp hm with hm | hm
        · exact ⟨fun hc2 => (h3 m hm).1 (List.mem_cons_of_mem _ hc2),
            (h3 m hm).2⟩
        · rw [List.mem_singleton.mp hm]
          exact ⟨hnin, hlt⟩
      · simp only [reconcileLoop, hp2]
        rw [List.filterMap_cons_some hpgl, h4, List.reverse_append]
        simp [glIdAt_eq hget]
      · simp only [reconcileLoop, hp2]
        rw [List.filterMap_cons_some hptxn, h5, List.reverse_append]
        simp [glIdAt_eq hget]

/-- Distinct in-range GL positions carry distinct `gl_id`s when the input's
`gl_id`s are duplicate-free. -/
theorem glIdAt_inj {gls : List GeneralLedgerEntry}
    (hnd : (gls.map (fun g => g.gl_id)).Nodup) {i j : ℕ}
    (hi : i < gls.length) (hj : j < gls.length)
    (h : glIdAt gls i = glIdAt gls j) : i = j := by
  apply List.get?_inj (by simpa using hi) hnd
  rw [List.get?_map, List.get?_map, List.get?_eq_get hi, List.get?_eq_get hj]
  have h1 : glIdAt gls i = (gls.get ⟨i, hi⟩).gl_id := glIdAt_eq (List.get?_eq_get hi)
  have h2 : glIdAt gls j = (gls.get ⟨j, hj⟩).gl_id := glIdAt_eq (List.get?_eq_get hj)
  simp only [Option.map_some']
  rw [← h1, ← h2, h]

/-- Mapping positions to `gl_id`s preserves freedom from duplicates. -/
theorem nodup_map_glIdAt {gls : List GeneralLedgerEntry}
    (hnd : (gls.map (fun g => g.gl_id)).Nodup) :
    ∀ {Δ : List ℕ}, Δ.Nodup → (∀ j ∈ Δ, j < gls.length) →
      (Δ.map (glIdAt gls)).Nodup := by
  intro Δ
  induction Δ with
  | nil => simp
  | cons j Δ ih =>
    intro hn hv
    rw [List.map_cons, List.nodup_cons]
    refine ⟨?_, ih (List.nodup_cons.mp hn).2
      (fun m hm => hv m (List.mem_cons_of_mem _ hm))⟩
    intro hmem
    obtain ⟨m, hm, heq⟩ := List.mem_map.mp hmem
    have : m = j := glIdAt_inj hnd (hv m (List.mem_cons_of_mem _ hm))
      (hv j (List.mem_cons_self _ _)) heq
    exact (List.nodup_cons.mp hn).1 (this ▸ hm)

/-- Counting one `gl_id` among the references at a duplicate-free block of
in-range positions: one when the position is in the block, zero
otherwise. -/
theorem count_glIdAt {gls : List GeneralLedgerEntry}
    (hnd : (gls.map (fun g => g.gl_id)).Nodup) {j : ℕ} (hj : j < gls.length) :
    ∀ {Δ : List ℕ}, (∀ m ∈ Δ, m < gls.length) →
      (Δ.map (glIdAt gls)).count (glIdAt gls j) =
        Δ.count j := by
  intro Δ
  induction Δ with
  | nil => simp
  | cons m Δ ih =>
    intro hv
    rw [List.map_cons, List.count_cons, List.count_cons,
      ih (fun m2 hm2 => hv m2 (List.mem_cons_of_mem _ hm2))]
    congr 1
    by_cases hmj : j = m
    · simp [hmj]
    · have hne : glIdAt gls j ≠ glIdAt gls m := fun h =>
        hmj (glIdAt_inj hnd hj (hv m (List.mem_cons_self _ _)) h)
      simp only [beq_iff_eq]
      rw [if_neg (fun h => hne h.symm), if_neg (fun h => hmj h.symm)]

/-- `missing_transaction` records never carry a transaction-verdict GL
reference. -/
theorem missingTxnResults_filterMap_txnGlId (c : List ℕ) :
    ∀ (k : ℕ) (l : List GeneralLedgerEntry),
      (missingTxnResults c k l).filterMap txnGlId = [] := by
  intro k l
  induction l generalizing k with
  | nil => simp [missingTxnResults]
  | cons g l ih =>
    by_cases h : k ∈ c
    · simp [missingTxnResults, h, ih]
    · simp [missingTxnResults, h, ih, txnGlId, mkMissingTxn]

/-- Every record of the closing loop has status `missing_transaction`. -/
theorem missingTxnResults_status (c : List ℕ) :
    ∀ (k : ℕ) (l : List GeneralLedgerEntry)
      (r : ReconciliationResult), r ∈ missingTxnResults c k l →
      r.status = "missing_transaction" := by
  intro k l
  induction l generalizing k with
  | nil => intro r h; simp [missingTxnResults] at h
  | cons g l ih =>
    intro r h
    by_cases hk : k ∈ c
    · rw [missingTxnResults, if_pos hk] at h
      exact ih (k + 1) r h
    · rw [missingTxnResults, if_neg hk] at h
      rcases List.mem_cons.mp h with rfl | h
      · rfl
      · exact ih (k + 1) r h

/-- No reference to `gid` appears among the closing loop's records when no
scanned entry carries it. -/
theorem missingTxnResults_count_zero (c : List ℕ) :
    ∀ (l : List GeneralLedgerEntry) (k : ℕ) (gid : String),
      (∀ m g, l.get? m = some g → g.gl_id ≠ gid) →
      ((missingTxnResults c k l).filterMap (fun r => r.gl_id)).count gid
        = 0 := by
  intro l
  induction l with
  | nil => intro k gid hno; simp [missingTxnResults]
  | cons g0 l ih =>
    intro k gid hno
    have htail : ∀ m g, l.get? m = some g → g.gl_id ≠ gid :=
      fun m g h => hno (m + 1) g (by simpa using h)
    have hhead : g0.gl_id ≠ gid := hno 0 g0 (by simp)
    by_cases hk : k ∈ c
    · rw [missingTxnResults, if_pos hk]
      exact ih (k + 1) gid htail
    · rw [missingTxnResults, if_neg hk]
      rw [List.filterMap_cons_some (show (mkMissingTxn g0).gl_id = some g0.gl_id from rfl),
        List.count_cons, ih (k + 1) gid htail]
      simp [hhead]

/-- The entry at position `j` (unique carrier of its `gl_id`) is referenced
by the closing loop exactly when `j` is unclaimed. -/
theorem missingTxnResults_count_one (c : List ℕ) :
    ∀ (l : List GeneralLedgerEntry) (k j : ℕ) (g : GeneralLedgerEntry),
      l.get? j = some g →
      (∀ m g2, l.get? m = some g2 → m ≠ j → g2.gl_id ≠ g.gl_id) →
      ((missingTxnResults c k l).filterMap (fun r => r.gl_id)).count g.gl_id =
        if (k + j) ∈ c then 0 else 1 := by
  intro l
  induction l with
  | nil => intro k j g h; simp at h
  | cons g0 l ih =>
    intro k j g hget hinj
    cases j with
    | zero =>
      have hg0 : g0 = g := by simpa using hget
      subst hg0
      have hzero := missingTxnResults_count_zero c l (k + 1) g0.gl_id
        (fun m g2 h => hinj (m + 1) g2 (by simpa using h) (by omega))
      by_cases hk : k ∈ c
      · rw [missingTxnResults, if_pos hk]
        simpa [hk] using hzero
      · rw [missingTxnResults, if_neg hk,
          List.filterMap_cons_some
            (show (mkMissingTxn g0).gl_id = some g0.gl_id from rfl),
          List.count_cons, hzero]
        simp [hk]
    | succ j =>
      have hne : g0.gl_id ≠ g.gl_id := hinj 0 g0 (by simp) (by omega)
      have htail : ∀ m g2, l.get? m = some g2 → m ≠ j → g2.gl_id ≠ g.gl_id :=
        fun m g2 h hm => hinj (m + 1) g2 (by simpa using h) (by omega)
      have hrec := ih (k + 1) j g (by simpa using hget) htail
      have hkj : k + 1 + j = k + (j + 1) := by omega
      by_cases hk : k ∈ c
      · rw [missingTxnResults, if_pos hk, hrec, hkj]
      · rw [missingTxnResults, if_neg hk,
          List.filterMap_cons_some
            (show (mkMissingTxn g0).gl_id = some g0.gl_id from rfl),
          List.count_cons, hrec, hkj]
        have hbeq : (g0.gl_id == g.gl_id) = false :=
          beq_eq_false_iff_ne.mpr hne
        rw [hbeq]
        simp

/-- C4: claim exclusivity.  Within a single matcher run the claimed set
never records the same GL position twice, and (for inputs whose `gl_id`s
are distinct, as distinct GL entries are) no `gl_id` is referenced by two
distinct `matched`/`amount_mismatch` results: a GL entry claimed by one
transaction cannot be claimed by a later transaction in the same run. -/
theorem claim4_claim_exclusivity (ts : List Transaction)
    (gls : List GeneralLedgerEntry) :
    (claimedList ts gls).Nodup ∧
    ((gls.map (fun g => g.gl_id)).Nodup →
      ((reconcile_transactions ts gls).filterMap txnGlId).Nodup) := by
  obtain ⟨Δ, h1, h2, h3, h4, h5⟩ := reconcileLoop_spec gls ts []
  constructor
  · rw [claimedList, h1, List.append_nil]
    exact h2
  · intro hnd
    have hre : reconcile_transactions ts gls =
        (reconcileLoop gls ts []).1 ++
          missingTxnResults (reconcileLoop gls ts []).2 0 gls := rfl
    rw [hre, List.filterMap_append, h5, missingTxnResults_filterMap_txnGlId,
      List.append_nil]
    exact nodup_map_glIdAt hnd (List.nodup_reverse.mpr h2)
      (fun j hj => (h3 j (List.mem_reverse.mp hj)).2)

/-- C4 witness: a two-transaction, two-GL-entry run in which the first
transaction claims the first entry by mismatch and the second claims the
second by match. -/
theorem claim4_witness :
    (claimedList [exT1, exT2] [exGnear, exGexact]).Nodup ∧
    ((reconcile_transactions [exT1, exT2] [exGnear, exGexact]).filterMap
        txnGlId).Nodup :=
  ⟨(claim4_claim_exclusivity [exT1, exT2] [exGnear, exGexact]).1,
   (claim4_claim_exclusivity [exT1, exT2] [exGnear, exGexact]).2 (by decide)⟩

/-- Each transaction's verdict sits at the transaction's input position and
carries its id and one of the three transaction statuses. -/
theorem reconcileLoop_get (gls : List GeneralLedgerEntry) :
    ∀ (ts : List Transaction) (c : List ℕ) (i : ℕ) (t : Transaction),
      ts.get? i = some t →
      ∃ r, (reconcileLoop gls ts c).1.get? i = some r ∧
        r.transaction_id = some t.txn_id ∧
        (r.status = "matched" ∨ r.status = "amount_mismatch" ∨
         r.status = "missing_gl") := by
  intro ts
  induction ts with
  | nil => intro c i t h; simp at h
  | cons t0 ts ih =>
    intro c i t h
    cases i with
    | zero =>
      have ht : t0 = t := by simpa using h
      subst ht
      obtain ⟨h1, h2⟩ := processTxn_fields t0 c gls
      exact ⟨(processTxn t0 c gls).1, by simp [reconcileLoop], h1, h2⟩
    | succ i =>
      obtain ⟨r, hr1, hr2⟩ := ih (processTxn t0 c gls).2 i t (by simpa using h)
      exact ⟨r, by simpa [reconcileLoop] using hr1, hr2⟩

/-- C3: exhaustive coverage.  Every run emits one verdict per transaction
(at the transaction's input position, carrying its id and a
`matched`/`amount_mismatch`/`missing_gl` status), followed by exactly the
`missing_transaction` records of the never-claimed GL entries, so the
total count is transactions plus unclaimed GL entries; under distinct
`gl_id`s, an unclaimed GL entry is referenced by exactly one
`missing_transaction` record and a claimed one by none. -/
theorem claim3_exhaustive_coverage (ts : List Transaction)
    (gls : List GeneralLedgerEntry) :
    (reconcile_transactions ts gls).length =
      ts.length + (missingTxnResults (claimedList ts gls) 0 gls).length ∧
    (∀ i t, ts.get? i = some t →
      ∃ r, (reconcile_transactions ts gls).get? i = some r ∧
        r.transaction_id = some t.txn_id ∧
        (r.status = "matched" ∨ r.status = "amount_mismatch" ∨
         r.status = "missing_gl")) ∧
    (reconcile_transactions ts gls).drop ts.length =
      missingTxnResults (claimedList ts gls) 0 gls ∧
    (∀ r ∈ (reconcile_transactions ts gls).drop ts.length,
      r.status = "missing_transaction") ∧
    ((gls.map (fun g => g.gl_id)).Nodup →
      ∀ j g, gls.get? j = some g →
        (((reconcile_transactions ts gls).drop ts.length).filterMap
            (fun r => r.gl_id)).count g.gl_id =
          if j ∈ claimedList ts gls then 0 else 1) := by
  have hre : reconcile_transactions ts gls =
      (reconcileLoop gls ts []).1 ++
        missingTxnResults (claimedList ts gls) 0 gls := rfl
  have hlen := reconcileLoop_length gls ts []
  have hdrop : (reconcile_transactions ts gls).drop ts.length =
      missingTxnResults (claimedList ts gls) 0 gls := by
    rw [hre, ← hlen, List.drop_left]
  refine ⟨?_, ?_, hdrop, ?_, ?_⟩
  · rw [hre, List.length_append, hlen]
  · intro i t ht
    obtain ⟨hi, -⟩ := List.get?_eq_some.mp ht
    obtain ⟨r, hr1, hr2, hr3⟩ := reconcileLoop_get gls ts [] i t ht
    refine ⟨r, ?_, hr2, hr3⟩
    rw [hre, List.get?_append (by rw [hlen]; exact hi)]
    exact hr1
  · intro r hr
    rw [hdrop] at hr
    exact missingTxnResults_status (claimedList ts gls) 0 gls r hr
  · intro hnd j g hget
    rw [hdrop]
    have hj : j < gls.length := by
      obtain ⟨hj, -⟩ := List.get?_eq_some.mp hget
      exact hj
    have := missingTxnResults_count_one (claimedList ts gls) gls 0 j g hget
      (fun m g2 hm hmne heq => hmne (glIdAt_inj hnd
        (by obtain ⟨h2, -⟩ := List.get?_eq_some.mp hm; exact h2) hj
        (by rw [glIdAt_eq hm, glIdAt_eq hget, heq])))
    rw [this, Nat.zero_add]

/-- C3 witness: the coverage theorem instantiated on a concrete run (one
mismatch claim, one exact-match claim, no unclaimed GL entries), with the
reference-count clause evaluated at the first GL entry. -/
theorem claim3_witness :
    (reconcile_transactions [exT1, exT2] [exGnear, exGexact]).length =
      2 + (missingTxnResults (claimedList [exT1, exT2] [exGnear, exGexact])
            0 [exGnear, exGexact]).length ∧
    (((reconcile_transactions [exT1, exT2] [exGnear, exGexact]).drop 2).filterMap
        (fun r => r.gl_id)).count exGnear.gl_id =
      if 0 ∈ claimedList [exT1, exT2] [exGnear, exGexact] then 0 else 1 :=
  ⟨(claim3_exhaustive_coverage [exT1, exT2] [exGnear, exGexact]).1,
   (claim3_exhaustive_coverage [exT1, exT2] [exGnear, exGexact]).2.2.2.2
     (by decide) 0 exGnear (by decide)⟩

/-- C1 counterexample: the claim quantifies over any unclaimed GL entry `g`
agreeing with `t` on account and date and within `0.01` of `t.amount`, and
promises a `matched` result referencing `g`.  But the scan is greedy: here
`exGexact` satisfies all of the claim's conditions for `exT1` (same account,
same date, never claimed in the run, distance `0 < 0.01`), yet the run emits
no `matched` result at all, because the earlier entry `exGnear` (distance
`50`) intercepts the transaction as an `amount_mismatch`. -/
theorem claim1_counterexample :
    exGexact.account_id = exT1.account_id ∧ exGexact.date = exT1.date ∧
    absQ (gl_amount exGexact - exT1.amount) < 1/100 ∧
    reconcile_transactions [exT1] [exGnear, exGexact] =
      [mkMismatch exT1 exGnear, mkMissingTxn exGexact] ∧
    (∀ r ∈ reconcile_transactions [exT1] [exGnear, exGexact],
      r.status ≠ "matched") := by
  decide

/-- C1 amended: the matching guarantee holds for the GL entry the greedy
scan actually selects.  If, when transaction `i` is processed, the first
unclaimed GL entry sharing its account and date whose net amount is within
`100` of `t.amount` is `g` at position `j` (that is,
`scanGL t (claimedBefore ts gls i) 0 gls = some (j, g)`), and `g`'s distance
is moreover below `0.01`, then the run emits at position `i` exactly one
`matched` result for `t` referencing `g` with `amount_difference = 0.0`
(even when the true difference is non-zero but below `0.01`), `g.gl_id` is
referenced exactly once in the whole output, and `g`'s position is claimed,
excluding it from matching any later transaction in the same run. -/
theorem claim1_amended (ts : List Transaction) (gls : List GeneralLedgerEntry)
    (i j : ℕ) (t : Transaction) (g : GeneralLedgerEntry)
    (hnd : (gls.map (fun g2 => g2.gl_id)).Nodup)
    (ht : ts.get? i = some t)
    (hscan : scanGL t (claimedBefore ts gls i) 0 gls = some (j, g))
    (hclose : absQ (gl_amount g - t.amount) < 1/100) :
    (reconcile_transactions ts gls).get? i = some (mkMatched t g) ∧
    ((reconcile_transactions ts gls).filterMap (fun r => r.gl_id)).count
        g.gl_id = 1 ∧
    j ∈ claimedList ts gls := by
  obtain ⟨hi, -⟩ := List.get?_eq_some.mp ht
  have hscanA : scanGL t (reconcileLoop gls (ts.take i) []).2 0 gls =
      some (j, g) := hscan
  obtain ⟨hget, hjlt, -, -, hjnin, -⟩ := scanGL_spec hscanA
  have hproc : processTxn t (reconcileLoop gls (ts.take i) []).2 gls =
      (mkMatched t g, j :: (reconcileLoop gls (ts.take i) []).2) := by
    rw [one_div] at hclose
    simp [processTxn, hscanA, hclose]
  have hgett : ts.get ⟨i, hi⟩ = t := by
    have h2 := List.get?_eq_get hi
    rw [ht] at h2
    exact (Option.some.inj h2).symm
  have hts : ts = ts.take i ++ t :: ts.drop (i + 1) := by
    conv_lhs => rw [← List.take_append_drop i ts]
    rw [List.drop_eq_get_cons hi, hgett]
  obtain ⟨ΔA, ha1, ha2, ha3, ha4, -⟩ := reconcileLoop_spec gls (ts.take i) []
  obtain ⟨ΔB, hb1, hb2, hb3, hb4, -⟩ := reconcileLoop_spec gls
    (ts.drop (i + 1)) (j :: (reconcileLoop gls (ts.take i) []).2)
  have hcons : reconcileLoop gls (t :: ts.drop (i + 1))
      (reconcileLoop gls (ts.take i) []).2 =
      (mkMatched t g :: (reconcileLoop gls (ts.drop (i + 1))
         (j :: (reconcileLoop gls (ts.take i) []).2)).1,
       (reconcileLoop gls (ts.drop (i + 1))
         (j :: (reconcileLoop gls (ts.take i) []).2)).2) := by
    simp [reconcileLoop, hproc]
  have hloop : reconcileLoop gls ts [] =
      ((reconcileLoop gls (ts.take i) []).1 ++ (mkMatched t g ::
         (reconcileLoop gls (ts.drop (i + 1))
           (j :: (reconcileLoop gls (ts.take i) []).2)).1),
       (reconcileLoop gls (ts.drop (i + 1))
         (j :: (reconcileLoop gls (ts.take i) []).2)).2) := by
    conv_lhs => rw [hts]
    rw [reconcileLoop_append, hcons]
  have hlenA : (reconcileLoop gls (ts.take i) []).1.length = i := by
    rw [reconcileLoop_length, List.length_take]
    omega
  have hcAeq : (reconcileLoop gls (ts.take i) []).2 = ΔA := by
    rw [ha1, List.append_nil]
  have hjA : j ∉ ΔA := hcAeq ▸ hjnin
  have hjB : j ∉ ΔB := fun hj => (hb3 j hj).1 (List.mem_cons_self _ _)
  have hjfin : j ∈ (reconcileLoop gls (ts.drop (i + 1))
      (j :: (reconcileLoop gls (ts.take i) []).2)).2 := by
    rw [hb1]
    exact List.mem_append_right _ (List.mem_cons_self _ _)
  have hres : reconcile_transactions ts gls =
      (reconcileLoop gls ts []).1 ++
        missingTxnResults (reconcileLoop gls ts []).2 0 gls := rfl
  refine ⟨?_, ?_, ?_⟩
  · rw [hres, hloop]
    simp only [List.append_assoc, List.cons_append]
    rw [List.get?_append_right (le_of_eq hlenA), hlenA, Nat.sub_self]
    rfl
  · rw [hres, hloop]
    simp only [List.append_assoc, List.cons_append]
    rw [List.filterMap_append,
      List.filterMap_cons_some
        (show (mkMatched t g).gl_id = some g.gl_id from rfl),
      List.filterMap_append, ha4, hb4]
    have hc1 : (List.map (glIdAt gls) ΔA.reverse).count g.gl_id = 0 := by
      rw [← glIdAt_eq hget,
        count_glIdAt hnd hjlt (fun m hm => (ha3 m (List.mem_reverse.mp hm)).2)]
      exact List.count_eq_zero.mpr (fun h => hjA (List.mem_reverse.mp h))
    have hc2 : (List.map (glIdAt gls) ΔB.reverse).count g.gl_id = 0 := by
      rw [← glIdAt_eq hget,
        count_glIdAt hnd hjlt (fun m hm => (hb3 m (List.mem_reverse.mp hm)).2)]
      exact List.count_eq_zero.mpr (fun h => hjB (List.mem_reverse.mp h))
    have hc3 := missingTxnResults_count_one
      (reconcileLoop gls (ts.drop (i + 1))
        (j :: (reconcileLoop gls (ts.take i) []).2)).2 gls 0 j g hget
      (fun m g2 hm hmne heq => hmne (glIdAt_inj hnd
        (by obtain ⟨h2, -⟩ := List.get?_eq_some.mp hm; exact h2) hjlt
        (by rw [glIdAt_eq hm, glIdAt_eq hget, heq])))
    rw [Nat.zero_add, if_pos hjfin] at hc3
    rw [List.count_append, List.count_cons, List.count_append, hc1, hc2, hc3]
    simp
  · rw [claimedList, hloop]
    exact hjfin

/-- C1 amended, witness: a single transaction whose first eligible GL entry
matches exactly: the run emits the `matched` record at position `0`, the
entry is referenced exactly once, and its position is claimed. -/
theorem claim1_amended_witness :
    (reconcile_transactions [exT1] [exGexact]).get? 0 =
      some (mkMatched exT1 exGexact) ∧
    ((reconcile_transactions [exT1] [exGexact]).filterMap
        (fun r => r.gl_id)).count exGexact.gl_id = 1 ∧
    0 ∈ claimedList [exT1] [exGexact] :=
  claim1_amended [exT1] [exGexact] 0 0 exT1 exGexact (by decide) (by decide)
    (by decide) (by decide)

/-- The IQR pass preserves duplicate-freedom of the accumulated ids. -/
theorem addIqr_nodup :
    ∀ (l : List Transaction) (acc : List AnomalyResult),
      (acc.map (fun a => a.transaction_id)).Nodup →
      ((addIqr acc l).map (fun a => a.transaction_id)).Nodup := by
  intro l
  induction l with
  | nil => intro acc h; exact h
  | cons t l ih =>
    intro acc h
    rw [addIqr]
    by_cases hmem : t.txn_id ∈ acc.map (fun a => a.transaction_id)
    · rw [if_pos hmem]
      exact ih acc h
    · rw [if_neg hmem]
      apply ih
      have hmap : (acc ++ [mkIqrResult t]).map (fun a => a.transaction_id) =
          acc.map (fun a => a.transaction_id) ++ [t.txn_id] := by
        simp [mkIqrResult]
      rw [hmap]
      exact List.Nodup.append h (List.nodup_singleton _)
        ((List.disjoint_singleton).mpr hmem)

/-- Once an id is present in the accumulator, the IQR pass never adds
another record with that id, so filtering the final output by that id gives
exactly what the accumulator already held. -/
theorem addIqr_filter_mem :
    ∀ (l : List Transaction) (acc : List AnomalyResult) (x : String),
      x ∈ acc.map (fun a => a.transaction_id) →
      (addIqr acc l).filter (fun r => r.transaction_id == x) =
        acc.filter (fun r => r.transaction_id == x) := by
  intro l
  induction l with
  | nil => intro acc x h; rfl
  | cons t l ih =>
    intro acc x hx
    rw [addIqr]
    by_cases hmem : t.txn_id ∈ acc.map (fun a => a.transaction_id)
    · rw [if_pos hmem]
      exact ih acc x hx
    · rw [if_neg hmem]
      have hne : t.txn_id ≠ x := fun h => hmem (h ▸ hx)
      rw [ih _ x (by rw [List.map_append]; exact List.mem_append_left _ hx),
        List.filter_append]
      have hsingle : ([mkIqrResult t]).filter
          (fun r => r.transaction_id == x) = [] := by
        simp [mkIqrResult, hne]
      rw [hsingle, List.append_nil]

/-- A transaction in the candidate list whose id is new to the accumulator
is added by the IQR pass exactly once. -/
theorem addIqr_filter_new :
    ∀ (l : List Transaction) (acc : List AnomalyResult) (t : Transaction),
      t ∈ l → t.txn_id ∉ acc.map (fun a => a.transaction_id) →
      (addIqr acc l).filter (fun r => r.transaction_id == t.txn_id) =
        [mkIqrResult t] := by
  intro l
  induction l with
  | nil => intro acc t h; simp at h
  | cons u l ih =>
    intro acc t htl hnmem
    rw [addIqr]
    by_cases hu : u.txn_id = t.txn_id
    · have hmk : mkIqrResult u = mkIqrResult t := by simp [mkIqrResult, hu]
      rw [if_neg (by rw [hu]; exact hnmem),
        addIqr_filter_mem l _ t.txn_id
          (by rw [List.map_append]; simp [mkIqrResult, hu]),
        List.filter_append]
      have h1 : acc.filter (fun r => r.transaction_id == t.txn_id) = [] :=
        List.filter_eq_nil.mpr (fun a ha hq =>
          hnmem (List.mem_map.mpr ⟨a, ha, by simpa using hq⟩))
      rw [h1, hmk]
      simp [mkIqrResult]
    · have htl2 : t ∈ l := by
        rcases List.mem_cons.mp htl with rfl | h
        · exact absurd rfl hu
        · exact h
      by_cases hmem : u.txn_id ∈ acc.map (fun a => a.transaction_id)
      · rw [if_pos hmem]
        exact ih acc t htl2 hnmem
      · rw [if_neg hmem]
        apply ih _ t htl2
        rw [List.map_append]
        intro h
        rcases List.mem_append.mp h with h | h
        · exact hnmem h
        · apply hu
          have h2 : t.txn_id = u.txn_id := by simpa [mkIqrResult] using h
          exact h2.symm

/-- Filtering a per-transaction mapped list by the id of a member, under
duplicate-free ids, keeps exactly that member's record. -/
theorem filter_map_mk_single (mk : Transaction → AnomalyResult)
    (hmk : ∀ u, (mk u).transaction_id = u.txn_id) :
    ∀ (l : List Transaction) (t : Transaction),
      (l.map (fun u => u.txn_id)).Nodup → t ∈ l →
      (l.map mk).filter (fun r => r.transaction_id == t.txn_id) = [mk t] := by
  intro l
  induction l with
  | nil => intro t h ht; simp at ht
  | cons u l ih =>
    intro t hnd htl
    rw [List.map_cons, List.nodup_cons] at hnd
    rw [List.map_cons, List.filter_cons]
    rcases List.mem_cons.mp htl with rfl | htl2
    · rw [if_pos (by simp [hmk])]
      have hrest : (l.map mk).filter
          (fun r => r.transaction_id == t.txn_id) = [] := by
        apply List.filter_eq_nil.mpr
        intro a ha hq
        obtain ⟨v, hv, rfl⟩ := List.mem_map.mp ha
        rw [hmk] at hq
        have hvt : v.txn_id = t.txn_id := by simpa using hq
        exact hnd.1 (hvt ▸ List.mem_map_of_mem _ hv)
      rw [hrest]
    · have hne : u.txn_id ≠ t.txn_id := fun h =>
        hnd.1 (h ▸ List.mem_map_of_mem _ htl2)
      rw [if_neg (by simp [hmk, hne])]
      exact ih t hnd.2 htl2

/-- C6: statistical deduplication with z-score priority.  In a statistical
run over at least 5 transactions with distinct ids: a transaction flagged by
the z-score method (population `|z| > 3`) yields exactly one output record,
tagged `z_score`, even when the IQR method also flags it; a transaction
flagged only by the IQR method yields exactly one record, tagged `iqr`; and
no transaction id appears twice in the statistical output. -/
theorem claim6_statistical_dedup (ts : List Transaction)
    (h5 : 5 ≤ ts.length)
    (hnd : (ts.map (fun t => t.txn_id)).Nodup) :
    (∀ t ∈ ts, zFlag (ts.map (fun u => u.amount)) t.amount = true →
      (detect_anomalies_statistical ts).filter
          (fun r => r.transaction_id == t.txn_id) = [mkZscoreResult t]) ∧
    (∀ t ∈ ts, zFlag (ts.map (fun u => u.amount)) t.amount = false →
      iqrFlag (ts.map (fun u => u.amount)) t.amount = true →
      (detect_anomalies_statistical ts).filter
          (fun r => r.transaction_id == t.txn_id) = [mkIqrResult t]) ∧
    ((detect_anomalies_statistical ts).map
        (fun r => r.transaction_id)).Nodup := by
  have hlt : ¬ ts.length < 5 := by omega
  have hdet : detect_anomalies_statistical ts =
      addIqr
        ((ts.filter (fun t => zFlag (ts.map (fun u => u.amount)) t.amount)).map
          mkZscoreResult)
        (ts.filter (fun t => iqrFlag (ts.map (fun u => u.amount)) t.amount)) := by
    rw [detect_anomalies_statistical, if_neg hlt]
  have hzids : (((ts.filter
      (fun t => zFlag (ts.map (fun u => u.amount)) t.amount)).map
        mkZscoreResult).map (fun a => a.transaction_id)) =
      (ts.filter (fun t => zFlag (ts.map (fun u => u.amount)) t.amount)).map
        (fun t => t.txn_id) := by
    rw [List.map_map]
    rfl
  have hznodup : ((ts.filter
      (fun t => zFlag (ts.map (fun u => u.amount)) t.amount)).map
        (fun t => t.txn_id)).Nodup :=
    List.Nodup.sublist (List.Sublist.map _ (List.filter_sublist ts)) hnd
  refine ⟨?_, ?_, ?_⟩
  · intro t ht hz
    rw [hdet]
    have htf : t ∈ ts.filter
        (fun t => zFlag (ts.map (fun u => u.amount)) t.amount) :=
      List.mem_filter.mpr ⟨ht, hz⟩
    rw [addIqr_filter_mem _ _ _
      (by rw [hzids]; exact List.mem_map_of_mem _ htf)]
    exact filter_map_mk_single mkZscoreResult (fun u => rfl) _ t hznodup htf
  · intro t ht hz hiqr
    rw [hdet]
    apply addIqr_filter_new
    · exact List.mem_filter.mpr ⟨ht, hiqr⟩
    · rw [hzids]
      intro hmem
      obtain ⟨u, hu, hequ⟩ := List.mem_map.mp hmem
      have hut : u = t :=
        List.inj_on_of_nodup_map hnd (List.mem_of_mem_filter hu) ht hequ
      subst hut
      have h1 := (List.mem_filter.mp hu).2
      rw [hz] at h1
      simp at h1
  · rw [hdet]
    apply addIqr_nodup
    rw [hzids]
    exact hznodup

/-- C6 witness: in `exTxns11` the amount-`11` transaction is flagged by both
the z-score and the IQR method; it appears exactly once, tagged `z_score`,
and the statistical output carries no duplicate ids. -/
theorem claim6_witness :
    (detect_anomalies_statistical exTxns11).filter
        (fun r => r.transaction_id == "T10") =
      [mkZscoreResult ⟨"T10", "d", 11, "A", "C"⟩] ∧
    ((detect_anomalies_statistical exTxns11).map
        (fun r => r.transaction_id)).Nodup :=
  ⟨(claim6_statistical_dedup exTxns11 (by decide) (by decide)).1
      ⟨"T10", "d", 11, "A", "C"⟩ (by decide) (by decide),
   (claim6_statistical_dedup exTxns11 (by decide) (by decide)).2.2⟩

/-- Tallying non-missing cells over rows that are each either fully null or
fully populated (with 5 cells each): 5 per populated row. -/
theorem nonNull_sum :
    ∀ (rows : List (List Cell)),
      (∀ r ∈ rows, r.length = 5) →
      (∀ r ∈ rows, (∀ c ∈ r, c = Cell.null) ∨ (∀ c ∈ r, c ≠ Cell.null)) →
      (rows.map (fun r => (r.filter (fun c => !cellIsNull c)).length)).sum =
        5 * (rows.length - rows.countP (fun r => r.all cellIsNull)) := by
  intro rows
  induction rows with
  | nil => intro h1 h2; simp
  | cons r rows ih =>
    intro h1 h2
    have hlen : r.length = 5 := h1 r (List.mem_cons_self _ _)
    have hcnt : rows.countP (fun r => r.all cellIsNull) ≤ rows.length :=
      List.countP_le_length _
    have hih := ih (fun r2 hr => h1 r2 (List.mem_cons_of_mem _ hr))
      (fun r2 hr => h2 r2 (List.mem_cons_of_mem _ hr))
    rcases h2 r (List.mem_cons_self _ _) with hn | hc
    · have hfilter : r.filter (fun c => !cellIsNull c) = [] :=
        List.filter_eq_nil.mpr
          (fun c hcr => by rw [hn c hcr]; simp [cellIsNull])
      have hall : r.all cellIsNull = true :=
        List.all_eq_true.mpr (fun c hcr => by rw [hn c hcr]; rfl)
      rw [List.map_cons, List.sum_cons, hfilter, List.length_cons,
        List.countP_cons, hall, hih]
      simp
    · have hfilter : r.filter (fun c => !cellIsNull c) = r :=
        List.filter_eq_self.mpr (fun c hcr => by
          cases c with
          | null => exact absurd rfl (hc _ hcr)
          | num q => rfl
          | str s2 => rfl)
      have hnonempty : r ≠ [] := by
        intro h
        rw [h] at hlen
        simp at hlen
      obtain ⟨c0, hc0⟩ := List.exists_mem_of_ne_nil r hnonempty
      have hc0null : cellIsNull c0 = false := by
        cases c0 with
        | null => exact absurd rfl (hc _ hc0)
        | num q => rfl
        | str s2 => rfl
      have hall : r.all cellIsNull = false := by
        rw [List.all_eq_false]
        exact ⟨c0, hc0, by rw [hc0null]; exact Bool.false_ne_true⟩
      rw [List.map_cons, List.sum_cons, hfilter, hlen, List.length_cons,
        List.countP_cons, hall, hih]
      simp
      omega

/-- C9 counterexample: on a concrete 4-row × 5-column frame with exactly one
fully-null row and the other rows complete, the scorer computes
`100 · 15 / 20 = 75.0`, not the claimed `95.0` — the claim's own formula
`100 × (non-missing cells) / (rows × columns)` counts the five missing cells
of the null row, not one. -/
theorem claim9_counterexample :
    exDF.rows.length = 4 ∧ exDF.columns.length = 5 ∧
    (∀ r ∈ exDF.rows, r.length = 5) ∧
    exDF.rows.countP (fun r => r.all cellIsNull) = 1 ∧
    (∀ r ∈ exDF.rows, (∀ c ∈ r, c = Cell.null) ∨ (∀ c ∈ r, c ≠ Cell.null)) ∧
    (calculate_data_quality exDF true "transactions").completeness_score
      ≠ 95 := by
  refine ⟨rfl, rfl, by decide, by decide, by decide, by decide⟩

/-- C9 amended: for a dataset of 4 rows × 5 columns in which exactly one row
is fully null (all five of its cells missing) and the rest complete, the
scorer yields `completeness_score = 75.0` (that is,
`100 × 15 / 20` by the formula
`100 × (count of non-missing cells) / (rows × columns)`); and for any
dataset whose `amount` column contains at least one negative value,
`consistency_score ≤ 90.0`. -/
theorem claim9_amended :
    (∀ (df : DataFrame) (dateOk : Bool) (name : String),
      df.columns.length = 5 → df.rows.length = 4 →
      (∀ r ∈ df.rows, r.length = 5) →
      df.rows.countP (fun r => r.all cellIsNull) = 1 →
      (∀ r ∈ df.rows, (∀ c ∈ r, c = Cell.null) ∨ (∀ c ∈ r, c ≠ Cell.null)) →
      (calculate_data_quality df dateOk name).completeness_score = 75) ∧
    (∀ (df : DataFrame) (dateOk : Bool) (name : String),
      "amount" ∈ df.columns → 0 < negAmountCount df →
      (calculate_data_quality df dateOk name).consistency_score ≤ 90) := by
  constructor
  · intro df dateOk name hcols hrows hlen hcount hcomplete
    have hnn : nonNullCells df = 15 := by
      rw [nonNullCells, nonNull_sum df.rows hlen hcomplete, hrows, hcount]
    have hscore : (calculate_data_quality df dateOk name).completeness_score =
        round2 (((nonNullCells df : ℚ) /
          ((df.rows.length : ℚ) * (df.columns.length : ℚ))) * 100) := rfl
    rw [hscore, hnn, hrows, hcols]
    have harith : (((15 : ℕ) : ℚ) / (((4 : ℕ) : ℚ) * ((5 : ℕ) : ℚ))) * 100 =
        (75 : ℚ) := by
      norm_num
    rw [harith]
    decide
  · intro df dateOk name hmem hneg
    have hcons : (calculate_data_quality df dateOk name).consistency_score =
        round2 ((100 : ℚ) - 10 -
          (if "date" ∈ df.columns ∧ dateOk = false then 15 else 0)) := by
      simp only [calculate_data_quality]
      rw [if_pos ⟨hmem, hneg⟩]
    rw [hcons]
    by_cases hd : "date" ∈ df.columns ∧ dateOk = false
    · rw [if_pos hd]
      decide
    · rw [if_neg hd]
      decide

/-- C9 amended, witness: the amended scorer facts applied to the concrete
frames: `exDF` scores completeness `75.0`, and `exDFneg` (one negative
`amount`) scores consistency at most `90.0`. -/
theorem claim9_witness :
    (calculate_data_quality exDF true "transactions").completeness_score
      = 75 ∧
    (calculate_data_quality exDFneg true "transactions").consistency_score
      ≤ 90 :=
  ⟨claim9_amended.1 exDF true "transactions" rfl rfl (by decide) (by decide)
      (by decide),
   claim9_amended.2 exDFneg true "transactions" (by decide) (by decide)⟩

/-- The population mean of a nonempty constant list is that constant. -/
theorem listMean_const {l : List ℚ} {a : ℚ} (hne : l ≠ [])
    (h : ∀ x ∈ l, x = a) : listMean l = a := by
  rw [listMean, List.sum_eq_card_nsmul l a h, nsmul_eq_mul]
  have hn : (l.length : ℚ) ≠ 0 :=
    Nat.cast_ne_zero.mpr (fun h0 => hne (List.length_eq_zero.mp h0))
  rw [mul_comm, mul_div_assoc, div_self hn, mul_one]

/-- The population variance of a nonempty constant list is zero. -/
theorem popVar_const {l : List ℚ} {a : ℚ} (hne : l ≠ [])
    (h : ∀ x ∈ l, x = a) : popVar l = 0 := by
  rw [popVar]
  have hz : ∀ y ∈ l.map (fun x => (x - listMean l) * (x - listMean l)),
      y = 0 := by
    intro y hy
    obtain ⟨x, hx, rfl⟩ := List.mem_map.mp hy
    rw [h x hx, listMean_const hne h]
    ring
  rw [List.sum_eq_card_nsmul _ 0 hz]
  simp

/-- Any interpolation quantile (with `num ≤ den`) of a nonempty constant
sorted list is that constant. -/
theorem quantileSorted_const {s : List ℚ} {a : ℚ} (hne : s ≠ [])
    (h : ∀ x ∈ s, x = a) {num den : ℕ} (hnd : num ≤ den) :
    quantileSorted s num den = a := by
  rw [quantileSorted]
  have hlen : 0 < s.length := List.length_pos.mpr hne
  have hj : (s.length - 1) * num / den < s.length := by
    rcases Nat.eq_zero_or_pos den with hden | hden
    · rw [hden, Nat.div_zero]
      exact hlen
    · have h1 : (s.length - 1) * num ≤ (s.length - 1) * den :=
        Nat.mul_le_mul_left _ hnd
      have h2 : (s.length - 1) * num / den ≤ (s.length - 1) * den / den :=
        Nat.div_le_div_right h1
      have h3 : (s.length - 1) * den / den = s.length - 1 :=
        Nat.mul_div_cancel _ hden
      omega
  obtain ⟨b, hb⟩ : ∃ b, s.get? ((s.length - 1) * num / den) = some b :=
    ⟨_, List.get?_eq_get hj⟩
  rw [hb]
  have hba : b = a := h b (List.get?_mem hb)
  cases hc : s.get? ((s.length - 1) * num / den + 1) with
  | none => exact hba
  | some c =>
    rw [hba, h c (List.get?_mem hc)]
    ring

/-- C10: degenerate-variance safety.  On at least 5 transactions whose
amounts are all equal — zero population standard deviation and zero IQR —
statistical anomaly detection returns the empty sequence and does not
fail: `NaN > 3` comparisons flag nothing (the squared z-score test reads
`0 > 0`), and no amount lies strictly outside the collapsed IQR bounds
`[Q1 - 1.5·IQR, Q3 + 1.5·IQR] = [a, a]`. -/
theorem claim10_degenerate_variance (a : ℚ) (ts : List Transaction)
    (h5 : 5 ≤ ts.length) (hall : ∀ t ∈ ts, t.amount = a) :
    detect_anomalies_statistical ts = [] := by
  have hlt : ¬ ts.length < 5 := by omega
  rw [detect_anomalies_statistical, if_neg hlt]
  have hamounts : ∀ x ∈ ts.map (fun u => u.amount), x = a := by
    intro x hx
    obtain ⟨t, ht, rfl⟩ := List.mem_map.mp hx
    exact hall t ht
  have hne : ts.map (fun u => u.amount) ≠ [] := by
    intro h
    rw [List.map_eq_nil] at h
    rw [h] at h5
    simp at h5
  have hz : ts.filter
      (fun t => zFlag (ts.map (fun u => u.amount)) t.amount) = [] := by
    apply List.filter_eq_nil.mpr
    intro t ht
    rw [hall t ht]
    simp only [zFlag, popVar_const hne hamounts, listMean_const hne hamounts,
      decide_eq_true_eq]
    simp
  have hsne : List.insertionSort (· ≤ ·) (ts.map fun u => u.amount) ≠ [] := by
    intro h
    have hp := List.perm_insertionSort (· ≤ ·) (ts.map fun u => u.amount)
    rw [h] at hp
    exact hne (List.Perm.nil_eq hp).symm
  have hsall : ∀ x ∈ List.insertionSort (· ≤ ·) (ts.map fun u => u.amount),
      x = a := fun x hx =>
    hamounts x ((List.perm_insertionSort (· ≤ ·) _).mem_iff.mp hx)
  have hbounds : iqrBounds (ts.map fun u => u.amount) = (a, a) := by
    rw [iqrBounds,
      quantileSorted_const hsne hsall (by norm_num : (1 : ℕ) ≤ 4),
      quantileSorted_const hsne hsall (by norm_num : (3 : ℕ) ≤ 4)]
    norm_num
  have hiqr : ts.filter
      (fun t => iqrFlag (ts.map (fun u => u.amount)) t.amount) = [] := by
    apply List.filter_eq_nil.mpr
    intro t ht
    rw [hall t ht]
    simp only [iqrFlag, hbounds, decide_eq_true_eq]
    simp
  simp only [hz, hiqr]
  rfl

/-- C10 witness: five transactions of equal amount `7` produce no
statistical anomalies. -/
theorem claim10_witness : detect_anomalies_statistical exTxnsConst = [] :=
  claim10_degenerate_variance 7 exTxnsConst (by decide) (by decide)
